import Mathlib

/-!
Shallow embedding of the dion dependency-injection core (`src/di.ts`).

The TypeScript module keeps four pieces of process-wide mutable state
(`classRegistry`, `groupRegistry`, `instances`, `groups`) and exposes the
decorator `injectable` (the spec's `registerComponent`) and the resolver
`inject` (the spec's `resolve`), which dispatches to `handleTag` (the
spec's `resolveTag`) and `handleGroup` (the spec's `resolveGroup`).

The embedding passes that state explicitly: every operation takes a
`DIState` and returns a result paired with the next state.  JavaScript
`Map`s become association lists with `mapSet` / `mapGet` mirroring
`Map.set` / `Map.get`.  `new target()` is an opaque zero-argument
construction; it is modelled by `construct`, which hands out a fresh
identity from a counter, so that object identity (`===` in the tests)
becomes equality of `Inst.id`.  A user constructor may throw; the model
carries that as a `ctorFails` flag on the constructible handle, and a
failing construction propagates a `constructorError` unmodified.
-/

namespace Dion

/-- An opaque constructible handle (a class value in the TypeScript source).
`tid` identifies the component, `tname` is the intrinsic class name used by
`normalizeTags` as a fallback (JavaScript treats a missing or empty name as
falsy), and `ctorFails` models a zero-argument constructor that throws. -/
structure Target where
  tid : Nat
  tname : Option String
  ctorFails : Bool
deriving DecidableEq, Repr

/-- A constructed instance: `id` is its identity (`===`), `ofTarget` records
which component's constructor produced it. -/
structure Inst where
  id : Nat
  ofTarget : Nat
deriving DecidableEq, Repr

/-- Mirrors `RegisteredClass` in `src/di.ts`: the entry stored per tag in the
class registry and appended to group buckets. -/
structure RegisteredClass where
  target : Target
  tags : List String
  group : Option String
deriving DecidableEq, Repr

/-- The process-wide mutable state of `src/di.ts`: the class registry, the
group registry, the singleton tag cache (`instances`), the singleton group
cache (`groups`), and the fresh-identity counter used by `construct`. -/
structure DIState where
  classRegistry : List (String × RegisteredClass)
  groupRegistry : List (String × List RegisteredClass)
  instances : List (String × Inst)
  groups : List (String × List Inst)
  nextId : Nat
deriving DecidableEq, Repr

/-- `Map.get`: first binding of the key, if any. -/
def mapGet {α : Type} (m : List (String × α)) (k : String) : Option α :=
  match m with
  | [] => none
  | (k', v) :: rest => if k' = k then some v else mapGet rest k

/-- `Map.set`: overwrite the binding of the key, or append a new one. -/
def mapSet {α : Type} (m : List (String × α)) (k : String) (v : α) :
    List (String × α) :=
  match m with
  | [] => [(k, v)]
  | (k', v') :: rest =>
    if k' = k then (k, v) :: rest else (k', v') :: mapSet rest k v

/-- The failures `src/di.ts` can throw, one constructor per `throw` site,
plus `constructorError` for an exception thrown by a user constructor. -/
inductive DIError where
  | noTagsProvided
  | invalidKind (kind : String)
  | noServiceForTag (tag : String)
  | noServiceForGroup (group : String)
  | needsEitherTagOrGroup
  | constructorError (tid : Nat)
deriving DecidableEq, Repr

/-- The `tags` argument of `injectable`: `string | string[] | undefined`. -/
inductive TagSpec where
  | undef
  | str (s : String)
  | list (l : List String)
deriving DecidableEq, Repr

/-- JavaScript truthiness of an optional string: `undefined` and `""` are
falsy. -/
def truthyStr (s : Option String) : Option String :=
  match s with
  | some v => if v = "" then none else some v
  | none => none

/-- The truthy intrinsic name of a component, as tested by
`if (tagList.length === 0 && name)` in `normalizeTags`. -/
def truthyName (t : Target) : Option String :=
  truthyStr t.tname

/-- `normalizeTags` from `src/di.ts`: a non-empty string becomes a singleton
list, the empty string and `undefined` become `[]`, a list is used as-is;
an empty list falls back to the component's truthy intrinsic name; if still
empty, throws `No tags provided`. -/
def normalizeTags (tags : TagSpec) (target : Target) :
    Except DIError (List String) :=
  let tagList : List String :=
    match tags with
    | .str s => if s = "" then [] else [s]
    | .list l => l
    | .undef => []
  let tagList : List String :=
    match truthyName target with
    | some n => if tagList = [] then [n] else tagList
    | none => tagList
  if tagList = [] then .error .noTagsProvided else .ok tagList

/-- The options record taken by `injectable`. -/
structure InjectableOptions where
  tags : TagSpec
  group : Option String
deriving DecidableEq, Repr

/-- One iteration of the `for (const tag of tagList)` loop in `injectable`:
set the class-registry binding for `tag`, and, when `group` is truthy,
append the entry to that group's bucket. -/
def registerStep (tagList : List String) (group : Option String)
    (target : Target) (s : DIState) (tag : String) : DIState :=
  let entry : RegisteredClass := ⟨target, tagList, group⟩
  let s1 : DIState :=
    { s with classRegistry := mapSet s.classRegistry tag entry }
  match truthyStr group with
  | some g =>
    let groupEntry := (mapGet s1.groupRegistry g).getD []
    { s1 with groupRegistry := mapSet s1.groupRegistry g (groupEntry ++ [entry]) }
  | none => s1

/-- The decorator produced by `injectable` from `src/di.ts`, applied to a
class `target` with decorator-context kind `kind`: rejects non-class kinds,
normalizes the tags, then registers the entry under every tag. -/
def injectable (options : InjectableOptions) (target : Target)
    (kind : String) (s : DIState) : Except DIError Unit × DIState :=
  if kind ≠ "class" then (.error (.invalidKind kind), s)
  else
    match normalizeTags options.tags target with
    | .error e => (.error e, s)
    | .ok tagList =>
      (.ok (), tagList.foldl (registerStep tagList options.group target) s)

/-- `new target()`: zero-argument construction of an instance.  A throwing
constructor propagates its error and leaves the state unchanged; otherwise
a fresh identity is drawn from the counter. -/
def construct (t : Target) (s : DIState) : Except DIError Inst × DIState :=
  if t.ctorFails then (.error (.constructorError t.tid), s)
  else (.ok ⟨s.nextId, t.tid⟩, { s with nextId := s.nextId + 1 })

/-- `handleTag` from `src/di.ts` (the spec's `resolveTag`): singleton cache
check, class-registry lookup, construction, and conditional cache write. -/
def handleTag (tag : String) (singleton : Bool) (s : DIState) :
    Except DIError Inst × DIState :=
  match (if singleton then mapGet s.instances tag else none) with
  | some inst => (.ok inst, s)
  | none =>
    match mapGet s.classRegistry tag with
    | none => (.error (.noServiceForTag tag), s)
    | some entry =>
      match construct entry.target s with
      | (.error e, s') => (.error e, s')
      | (.ok inst, s') =>
        (.ok inst,
          if singleton then
            { s' with instances := mapSet s'.instances tag inst }
          else s')

/-- The `for (const { target: item } of groupItems)` loop of `handleGroup`:
constructs every entry in order, pushing onto the local accumulator only
when `singleton` is true (exactly as the source's guarded `push`); the
first construction failure propagates and aborts the rest. -/
def constructLoop (items : List RegisteredClass) (singleton : Bool)
    (acc : List Inst) (s : DIState) : Except DIError (List Inst) × DIState :=
  match items with
  | [] => (.ok acc, s)
  | e :: rest =>
    match construct e.target s with
    | (.error err, s') => (.error err, s')
    | (.ok inst, s') =>
      constructLoop rest singleton (if singleton then acc ++ [inst] else acc) s'

/-- `handleGroup` from `src/di.ts` (the spec's `resolveGroup`): singleton
group-cache check, group-registry lookup, the construction loop, and the
conditional group-cache write. -/
def handleGroup (group : String) (singleton : Bool) (s : DIState) :
    Except DIError (List Inst) × DIState :=
  match (if singleton then mapGet s.groups group else none) with
  | some cached => (.ok cached, s)
  | none =>
    match mapGet s.groupRegistry group with
    | none => (.error (.noServiceForGroup group), s)
    | some groupItems =>
      match constructLoop groupItems singleton [] s with
      | (.error err, s') => (.error err, s')
      | (.ok insts, s') =>
        (.ok insts,
          if singleton then
            { s' with groups := mapSet s'.groups group insts }
          else s')

/-- The options record taken by `inject`; `singleton` defaults to `true`
via the spread `{ ...{ singleton: true }, ...options }`. -/
structure InjectOptions where
  tag : Option String
  group : Option String
  singleton : Option Bool
deriving DecidableEq, Repr

/-- The value returned by `inject`: one instance (tag path) or an ordered
sequence of instances (group path). -/
inductive Resolved where
  | one (inst : Inst)
  | many (insts : List Inst)
deriving DecidableEq, Repr

/-- `inject` from `src/di.ts` (the spec's `resolve`): truthy `tag` wins,
then truthy `group`; with neither, throws `Needs either tag or group`. -/
def inject (options : InjectOptions) (s : DIState) :
    Except DIError Resolved × DIState :=
  let singleton := options.singleton.getD true
  match truthyStr options.tag with
  | some t =>
    match handleTag t singleton s with
    | (.ok inst, s') => (.ok (.one inst), s')
    | (.error e, s') => (.error e, s')
  | none =>
    match truthyStr options.group with
    | some g =>
      match handleGroup g singleton s with
      | (.ok insts, s') => (.ok (.many insts), s')
      | (.error e, s') => (.error e, s')
    | none => (.error .needsEitherTagOrGroup, s)

/-- The state at module load: all four maps empty, counter at zero. -/
def initState : DIState := ⟨[], [], [], [], 0⟩

/-- States reachable from module load through the public API: any sequence
of decorator applications and resolutions. -/
inductive Reachable : DIState → Prop where
  | init : Reachable initState
  | reg (opts : InjectableOptions) (target : Target) (kind : String)
      {s : DIState} : Reachable s → Reachable (injectable opts target kind s).2
  | res (opts : InjectOptions) {s : DIState} :
      Reachable s → Reachable (inject opts s).2

/-- The instances the construction loop produces from a bucket, in bucket
order, when identities start at `n`: entry `k` yields identity `n + k`. -/
def freshly (items : List RegisteredClass) (n : Nat) : List Inst :=
  match items with
  | [] => []
  | e :: rest => ⟨n, e.target.tid⟩ :: freshly rest (n + 1)

/-- Every entry of the bucket has a non-throwing constructor. -/
def allCtorsOk (items : List RegisteredClass) : Prop :=
  ∀ e ∈ items, e.target.ctorFails = false

instance (items : List RegisteredClass) : Decidable (allCtorsOk items) :=
  List.decidableBAll _ items

/-- Concrete component handles used by witnesses and counterexamples. -/
def tgtX : Target := ⟨0, some "X", false⟩

def tgtA : Target := ⟨1, some "A", false⟩

def tgtB : Target := ⟨2, some "B", false⟩

def tgtBad : Target := ⟨3, some "Bad", true⟩

/-- A component with no usable intrinsic name (anonymous class). -/
def tgtAnon : Target := ⟨4, none, false⟩

/-- The state after registering `tgtX` under tag `"x"` in group `"g"`. -/
def stateX : DIState := (injectable ⟨.str "x", some "g"⟩ tgtX "class" initState).2

/-- The class registry after registering `A` and then `B` under tag `t`
(no group): two successive overwrites of the same key. -/
def twiceSet (m : List (String × RegisteredClass)) (t : String)
    (A B : Target) : List (String × RegisteredClass) :=
  mapSet (mapSet m t ⟨A, [t], none⟩) t ⟨B, [t], none⟩

/-- The state after registering `tgtA` (intrinsic name `"A"`, no explicit
tags) in group `"h"`. -/
def stateA : DIState := (injectable ⟨.undef, some "h"⟩ tgtA "class" initState).2

/-- `stateA` plus `tgtBad`, whose constructor throws, in the same group. -/
def stateABad : DIState :=
  (injectable ⟨.undef, some "h"⟩ tgtBad "class" stateA).2

/-- The group bucket produced by registering `target` under the normalized
tag list `tags` in group `g` on top of state `s`: the previous bucket
followed by one copy of the entry per tag. -/
def regBucket (s : DIState) (g : String) (target : Target)
    (tags : List String) : List RegisteredClass :=
  (mapGet s.groupRegistry g).getD [] ++
    List.replicate tags.length ⟨target, tags, some g⟩

/-- The internal consistency of the process-wide state that every sequence
of API calls maintains: group buckets are never empty, the singleton tag
cache only holds tags present in the class registry, and the singleton
group cache only holds groups present in the group registry. -/
def GoodState (s : DIState) : Prop :=
  (∀ g l, mapGet s.groupRegistry g = some l → l ≠ []) ∧
  (∀ t, (mapGet s.instances t).isSome → (mapGet s.classRegistry t).isSome) ∧
  (∀ g, (mapGet s.groups g).isSome → (mapGet s.groupRegistry g).isSome)

/-! ### Basic facts about the map operations -/

theorem mapGet_mapSet_self {α : Type} (m : List (String × α)) (k : String)
    (v : α) : mapGet (mapSet m k v) k = some v := by
  induction m with
  | nil => simp [mapSet, mapGet]
  | cons hd tl ih =>
    obtain ⟨k', v'⟩ := hd
    by_cases h : k' = k
    · simp [mapSet, mapGet, h]
    · simp [mapSet, mapGet, h, ih]

theorem mapGet_mapSet_ne {α : Type} (m : List (String × α)) (k k' : String)
    (v : α) (h : k ≠ k') : mapGet (mapSet m k v) k' = mapGet m k' := by
  induction m with
  | nil => simp [mapSet, mapGet, h]
  | cons hd tl ih =>
    obtain ⟨k₀, v₀⟩ := hd
    by_cases hk : k₀ = k
    · subst hk
      simp [mapSet, mapGet, h]
    · simp [mapSet, mapGet, hk, ih]

theorem mapGet_mapSet_isSome {α : Type} (m : List (String × α))
    (k k' : String) (v : α) (h : (mapGet m k').isSome) :
    (mapGet (mapSet m k v) k').isSome := by
  by_cases hk : k = k'
  · subst hk
    simp [mapGet_mapSet_self]
  · rw [mapGet_mapSet_ne m k k' v hk]
    exact h

/-! ### Claim theorems -/


/-- C8: if `inject` is called with neither a tag nor a group, it fails with
`Needs either tag or group` and the returned state is the input state, so no
registry or cache is read or modified. -/
theorem inject_neither_tag_nor_group (opts : InjectOptions) (s : DIState)
    (ht : opts.tag = none) (hg : opts.group = none) :
    inject opts s = (.error .needsEitherTagOrGroup, s) := by
  simp [inject, ht, hg, truthyStr]

theorem inject_neither_tag_nor_group_witness :
    inject ⟨none, none, none⟩ initState
      = (.error .needsEitherTagOrGroup, initState) :=
  inject_neither_tag_nor_group ⟨none, none, none⟩ initState rfl rfl

/-- C10: an empty-string tag or group is falsy, so `inject` treats it as
not supplied: a call with only an empty-string tag, or only an empty-string
group, fails with `Needs either tag or group` (never `NotFound`) leaving
the state unchanged,
and an options record whose tag is `""` resolves exactly as if the tag were
absent — hence a component registered under the tag `""` can never be
reached through `inject`'s tag path. -/
theorem inject_empty_string_treated_as_absent (s : DIState)
    (b : Option Bool) (opts : InjectOptions) (h : opts.tag = some "") :
    inject ⟨some "", none, b⟩ s = (.error .needsEitherTagOrGroup, s) ∧
    inject ⟨none, some "", b⟩ s = (.error .needsEitherTagOrGroup, s) ∧
    inject opts s = inject ⟨none, opts.group, opts.singleton⟩ s := by
  refine ⟨by simp [inject, truthyStr], by simp [inject, truthyStr], ?_⟩
  obtain ⟨tag, group, single⟩ := opts
  cases h
  simp [inject, truthyStr]

theorem inject_empty_string_treated_as_absent_witness :
    inject ⟨some "", none, none⟩ initState
      = (.error .needsEitherTagOrGroup, initState) :=
  (inject_empty_string_treated_as_absent initState none
    ⟨some "", none, none⟩ rfl).1

/-- A non-empty string tag specification normalizes to the one-element list
containing it, whatever the component's intrinsic name. -/
theorem normalizeTags_str_nonempty (t : String) (target : Target)
    (ht : t ≠ "") : normalizeTags (.str t) target = .ok [t] := by
  cases h : truthyName target with
  | none => simp [normalizeTags, h, ht]
  | some n => simp [normalizeTags, h, ht]

/-- A non-empty sequence tag specification is used as-is. -/
theorem normalizeTags_list_nonempty (l : List String) (target : Target)
    (hl : l ≠ []) : normalizeTags (.list l) target = .ok l := by
  cases h : truthyName target with
  | none => simp [normalizeTags, h, hl]
  | some n => simp [normalizeTags, h, hl]

/-- Registering under a single non-empty tag with no group only overwrites
that tag's class-registry binding. -/
theorem injectable_single_tag_no_group (t : String) (target : Target)
    (s : DIState) (ht : t ≠ "") :
    injectable ⟨.str t, none⟩ target "class" s
      = (.ok (), { s with
          classRegistry := mapSet s.classRegistry t ⟨target, [t], none⟩ }) := by
  simp [injectable, normalizeTags_str_nonempty t target ht, registerStep,
    truthyStr]


/-- C1 (code bug): after registering one component in group `"g"`, the
bucket for `"g"` has exactly one entry, yet `handleGroup "g" false` — the
non-singleton path — returns the empty sequence: the loop constructs the
entry's instance (the identity counter advances from 0 to 1) but only
pushes it onto the result when `singleton` is true, so every instance is
discarded.  The group cache is indeed neither read nor written, but the
returned sequence's length is 0, not the bucket length 1. -/
theorem handleGroup_nonsingleton_returns_empty :
    mapGet stateX.groupRegistry "g" = some [⟨tgtX, ["x"], some "g"⟩] ∧
    handleGroup "g" false stateX = (.ok [], { stateX with nextId := 1 }) ∧
    stateX.groups = [] ∧ stateX.nextId = 0 :=
  ⟨rfl, rfl, rfl, rfl⟩

/-- C6: non-singleton tag resolution constructs a fresh instance each call
and never touches the singleton cache.  For a registered tag whose
constructor does not throw, `handleTag t false` returns the instance with
the next fresh identity and advances only the counter (registries and both
caches are those of the input state), and an immediately repeated call
returns an instance with a different identity. -/
theorem handleTag_nonsingleton_fresh (t : String) (s : DIState)
    (e : RegisteredClass) (hreg : mapGet s.classRegistry t = some e)
    (hok : e.target.ctorFails = false) :
    handleTag t false s
      = (.ok ⟨s.nextId, e.target.tid⟩, { s with nextId := s.nextId + 1 }) ∧
    handleTag t false { s with nextId := s.nextId + 1 }
      = (.ok ⟨s.nextId + 1, e.target.tid⟩, { s with nextId := s.nextId + 2 }) ∧
    (⟨s.nextId, e.target.tid⟩ : Inst) ≠ ⟨s.nextId + 1, e.target.tid⟩ := by
  refine ⟨?_, ?_, by simp⟩
  · simp [handleTag, hreg, construct, hok]
  · simp [handleTag, hreg, construct, hok]

theorem handleTag_nonsingleton_fresh_witness :
    handleTag "x" false stateX
      = (.ok ⟨stateX.nextId, tgtX.tid⟩, { stateX with nextId := stateX.nextId + 1 }) ∧
    handleTag "x" false { stateX with nextId := stateX.nextId + 1 }
      = (.ok ⟨stateX.nextId + 1, tgtX.tid⟩, { stateX with nextId := stateX.nextId + 2 }) ∧
    (⟨stateX.nextId, tgtX.tid⟩ : Inst) ≠ ⟨stateX.nextId + 1, tgtX.tid⟩ :=
  handleTag_nonsingleton_fresh "x" stateX ⟨tgtX, ["x"], some "g"⟩ rfl rfl

/-- C5: tag normalization.  A non-empty string becomes a one-element list;
a non-empty sequence is used as-is; `undefined`, the empty string and the
empty sequence fall back to the one-element list holding the component's
truthy intrinsic name; and when no tag can be determined (no truthy
intrinsic name) normalization fails with `No tags provided`, in which case
the decorator rethrows that failure and leaves the registries and caches
exactly as they were. -/
theorem normalizeTags_spec (target : Target) (g : Option String)
    (s : DIState) :
    (∀ t : String, t ≠ "" → normalizeTags (.str t) target = .ok [t]) ∧
    (∀ l : List String, l ≠ [] → normalizeTags (.list l) target = .ok l) ∧
    (∀ n : String, truthyName target = some n →
       normalizeTags .undef target = .ok [n] ∧
       normalizeTags (.str "") target = .ok [n] ∧
       normalizeTags (.list []) target = .ok [n]) ∧
    (truthyName target = none →
       normalizeTags .undef target = .error .noTagsProvided ∧
       normalizeTags (.str "") target = .error .noTagsProvided ∧
       normalizeTags (.list []) target = .error .noTagsProvided) ∧
    (∀ ts : TagSpec, normalizeTags ts target = .error .noTagsProvided →
       injectable ⟨ts, g⟩ target "class" s = (.error .noTagsProvided, s)) := by
  refine ⟨fun t ht => normalizeTags_str_nonempty t target ht,
    fun l hl => normalizeTags_list_nonempty l target hl,
    fun n hn => ?_, fun hn => ?_, fun ts hts => ?_⟩
  · refine ⟨?_, ?_, ?_⟩ <;> simp [normalizeTags, hn]
  · refine ⟨?_, ?_, ?_⟩ <;> simp [normalizeTags, hn]
  · simp [injectable, hts]

theorem normalizeTags_spec_witness :
    normalizeTags (.str "a") tgtX = .ok ["a"] ∧
    normalizeTags (.list ["a", "b"]) tgtX = .ok ["a", "b"] ∧
    normalizeTags .undef tgtX = .ok ["X"] ∧
    normalizeTags .undef tgtAnon = .error .noTagsProvided ∧
    injectable ⟨.undef, none⟩ tgtAnon "class" initState
      = (.error .noTagsProvided, initState) := by
  obtain ⟨h1, h2, h3, h4, h5⟩ := normalizeTags_spec tgtAnon none initState
  obtain ⟨g1, g2, g3, g4, g5⟩ := normalizeTags_spec tgtX none initState
  exact ⟨g1 "a" (by decide), g2 ["a", "b"] (by decide),
    (g3 "X" rfl).1, (h4 rfl).1, h5 .undef (h4 rfl).1⟩


/-- C9: the class registry maps a tag to at most one entry, and
re-registering an already-used tag overwrites it without error, so a later
cache-miss or non-singleton resolution of that tag constructs from the most
recently registered component.  Registering `A` and then `B` under the same
tag `t` succeeds both times, leaves `t` bound to `B`'s entry, changes no
other tag's binding and no cache, and `handleTag t` (when it is not served
from the singleton cache) constructs an instance of `B`. -/
theorem classRegistry_last_write_wins (t : String) (s : DIState)
    (A B : Target) (ht : t ≠ "") (hB : B.ctorFails = false) :
    injectable ⟨.str t, none⟩ A "class" s
      = (.ok (), { s with
          classRegistry := mapSet s.classRegistry t ⟨A, [t], none⟩ }) ∧
    injectable ⟨.str t, none⟩ B "class"
        { s with classRegistry := mapSet s.classRegistry t ⟨A, [t], none⟩ }
      = (.ok (), { s with classRegistry := twiceSet s.classRegistry t A B }) ∧
    mapGet (twiceSet s.classRegistry t A B) t = some ⟨B, [t], none⟩ ∧
    (∀ t', t ≠ t' →
       mapGet (twiceSet s.classRegistry t A B) t' = mapGet s.classRegistry t') ∧
    (∀ b : Bool, (b = true → mapGet s.instances t = none) →
       (handleTag t b
           { s with classRegistry := twiceSet s.classRegistry t A B }).1
         = .ok ⟨s.nextId, B.tid⟩) := by
  refine ⟨injectable_single_tag_no_group t A s ht,
    injectable_single_tag_no_group t B _ ht,
    mapGet_mapSet_self _ t _, fun t' ht' => ?_, fun b hb => ?_⟩
  · rw [twiceSet, mapGet_mapSet_ne _ t t' _ ht', mapGet_mapSet_ne _ t t' _ ht']
  · cases b with
    | false => simp [handleTag, twiceSet, mapGet_mapSet_self, construct, hB]
    | true => simp [handleTag, hb rfl, twiceSet, mapGet_mapSet_self, construct, hB]

theorem classRegistry_last_write_wins_witness :
    injectable ⟨.str "t", none⟩ tgtA "class" initState
      = (.ok (), { initState with
          classRegistry := mapSet initState.classRegistry "t" ⟨tgtA, ["t"], none⟩ }) ∧
    injectable ⟨.str "t", none⟩ tgtB "class"
        { initState with
          classRegistry := mapSet initState.classRegistry "t" ⟨tgtA, ["t"], none⟩ }
      = (.ok (), { initState with
          classRegistry := twiceSet initState.classRegistry "t" tgtA tgtB }) ∧
    mapGet (twiceSet initState.classRegistry "t" tgtA tgtB) "t"
      = some ⟨tgtB, ["t"], none⟩ ∧
    (∀ t', "t" ≠ t' →
       mapGet (twiceSet initState.classRegistry "t" tgtA tgtB) t'
         = mapGet initState.classRegistry t') ∧
    (∀ b : Bool, (b = true → mapGet initState.instances "t" = none) →
       (handleTag "t" b
           { initState with
             classRegistry := twiceSet initState.classRegistry "t" tgtA tgtB }).1
         = .ok ⟨initState.nextId, tgtB.tid⟩) :=
  classRegistry_last_write_wins "t" initState tgtA tgtB (by decide) rfl

/-! ### The construction loop of `handleGroup` -/

theorem freshly_length (items : List RegisteredClass) (n : Nat) :
    (freshly items n).length = items.length := by
  induction items generalizing n with
  | nil => rfl
  | cons e rest ih => simp [freshly, ih]

theorem freshly_getD (items : List RegisteredClass) (n k : Nat) (d : Inst)
    (e : RegisteredClass) (hk : k < items.length) :
    (freshly items n).getD k d
      = ⟨n + k, ((items.getD k e).target.tid)⟩ := by
  induction items generalizing n k with
  | nil => simp at hk
  | cons e0 rest ih =>
    cases k with
    | zero => rfl
    | succ k' =>
      have hk' : k' < rest.length := by
        simp only [List.length_cons] at hk
        omega
      show (freshly rest (n + 1)).getD k' d = _
      rw [ih (n + 1) k' hk']
      have harith : n + 1 + k' = n + (k' + 1) := by omega
      rw [harith]
      rfl

theorem getD_replicate (n k : Nat) (e d : RegisteredClass) (hk : k < n) :
    (List.replicate n e).getD k d = e := by
  induction n generalizing k with
  | zero => omega
  | succ n' ih =>
    cases k with
    | zero => rfl
    | succ k' =>
      have hk' : k' < n' := by omega
      show (List.replicate n' e).getD k' d = e
      exact ih k' hk'

theorem getD_append_offset (l1 l2 : List RegisteredClass) (k : Nat)
    (d : RegisteredClass) :
    (l1 ++ l2).getD (l1.length + k) d = l2.getD k d := by
  induction l1 with
  | nil => simp
  | cons e rest ih =>
    have harith : (e :: rest).length + k = (rest.length + k) + 1 := by
      simp only [List.length_cons]
      omega
    rw [harith, List.cons_append]
    show (rest ++ l2).getD (rest.length + k) d = l2.getD k d
    exact ih

/-- With every constructor succeeding, the loop in singleton mode returns
the accumulator extended by one fresh instance per entry, in entry order,
and advances only the identity counter. -/
theorem constructLoop_all_ok (items : List RegisteredClass) (acc : List Inst)
    (s : DIState) (h : allCtorsOk items) :
    constructLoop items true acc s
      = (.ok (acc ++ freshly items s.nextId),
         { s with nextId := s.nextId + items.length }) := by
  induction items generalizing acc s with
  | nil => simp [constructLoop, freshly]
  | cons e rest ih =>
    have he : e.target.ctorFails = false := h e (by simp)
    have hrest : allCtorsOk rest := fun x hx => h x (by simp [hx])
    rw [constructLoop]
    simp only [construct, he, if_false, Bool.false_eq_true, if_true]
    rw [ih _ _ hrest]
    simp [freshly, List.append_assoc]
    omega

/-- With every constructor succeeding, the loop in non-singleton mode
constructs every entry (the counter advances by the bucket length) but
returns the accumulator unchanged: the guarded push discards them all. -/
theorem constructLoop_nonsingleton (items : List RegisteredClass)
    (acc : List Inst) (s : DIState) (h : allCtorsOk items) :
    constructLoop items false acc s
      = (.ok acc, { s with nextId := s.nextId + items.length }) := by
  induction items generalizing acc s with
  | nil => simp [constructLoop]
  | cons e rest ih =>
    have he : e.target.ctorFails = false := h e (by simp)
    have hrest : allCtorsOk rest := fun x hx => h x (by simp [hx])
    rw [constructLoop]
    simp only [construct, he, Bool.false_eq_true, if_false]
    rw [ih _ _ hrest]
    simp
    omega

/-- The first throwing constructor aborts the loop: entries before it are
constructed (the counter advances by their number), entries after it are
not, and its error propagates unmodified. -/
theorem constructLoop_first_failure (pre : List RegisteredClass)
    (bad : RegisteredClass) (post : List RegisteredClass) (b : Bool)
    (acc : List Inst) (s : DIState) (hpre : allCtorsOk pre)
    (hbad : bad.target.ctorFails = true) :
    constructLoop (pre ++ bad :: post) b acc s
      = (.error (.constructorError bad.target.tid),
         { s with nextId := s.nextId + pre.length }) := by
  induction pre generalizing acc s with
  | nil => simp [constructLoop, construct, hbad]
  | cons e rest ih =>
    have he : e.target.ctorFails = false := hpre e (by simp)
    have hrest : allCtorsOk rest := fun x hx => hpre x (by simp [hx])
    rw [List.cons_append, constructLoop]
    simp only [construct, he, Bool.false_eq_true, if_false]
    rw [ih _ _ hrest]
    simp
    omega

/-- First singleton resolution of a group on a cache miss, when every
bucket constructor succeeds: one fresh instance per entry in bucket order,
and the sequence is cached. -/
theorem handleGroup_first_singleton (g : String) (s : DIState)
    (items : List RegisteredClass)
    (hreg : mapGet s.groupRegistry g = some items)
    (hcache : mapGet s.groups g = none) (hok : allCtorsOk items) :
    handleGroup g true s
      = (.ok (freshly items s.nextId),
         { s with nextId := s.nextId + items.length,
                  groups := mapSet s.groups g (freshly items s.nextId) }) := by
  rw [handleGroup]
  simp only [if_true, hcache, hreg]
  rw [constructLoop_all_ok items [] s hok]
  simp

/-- C7: group resolution has no partial-failure mode.  On a cache miss: if
every bucket entry's constructor succeeds, the (default, singleton)
resolution returns the full sequence, one instance per entry; if some
entry's constructor throws, then — in either resolution mode — the first
such failure propagates to the caller unmodified, the entries after it are
never constructed (the identity counter advances only past the successful
prefix), and the group singleton cache is not written (the final state
carries the input state's `groups` map unchanged). -/
theorem handleGroup_no_partial_failure (g : String) (s : DIState)
    (items : List RegisteredClass) (b : Bool)
    (hreg : mapGet s.groupRegistry g = some items)
    (hcache : mapGet s.groups g = none) :
    (allCtorsOk items →
       handleGroup g true s
         = (.ok (freshly items s.nextId),
            { s with nextId := s.nextId + items.length,
                     groups := mapSet s.groups g (freshly items s.nextId) }) ∧
       (freshly items s.nextId).length = items.length) ∧
    (∀ pre bad post, items = pre ++ bad :: post → allCtorsOk pre →
       bad.target.ctorFails = true →
       handleGroup g b s
         = (.error (.constructorError bad.target.tid),
            { s with nextId := s.nextId + pre.length })) := by
  constructor
  · intro hok
    exact ⟨handleGroup_first_singleton g s items hreg hcache hok,
      freshly_length items s.nextId⟩
  · intro pre bad post hsplit hpre hbad
    subst hsplit
    have hloop := constructLoop_first_failure pre bad post b [] s hpre hbad
    cases b with
    | false => simp [handleGroup, hreg, hloop]
    | true => simp [handleGroup, hcache, hreg, hloop]

theorem handleGroup_no_partial_failure_witness :
    handleGroup "h" true stateABad
      = (.error (.constructorError tgtBad.tid),
         { stateABad with nextId := stateABad.nextId + 1 }) ∧
    (handleGroup "h" true stateA).1
      = .ok (freshly [⟨tgtA, ["A"], some "h"⟩] stateA.nextId) := by
  constructor
  · have h := (handleGroup_no_partial_failure "h" stateABad
      [⟨tgtA, ["A"], some "h"⟩, ⟨tgtBad, ["Bad"], some "h"⟩] true rfl rfl).2
    exact h [⟨tgtA, ["A"], some "h"⟩] ⟨tgtBad, ["Bad"], some "h"⟩ [] rfl
      (by decide) rfl
  · have h := (handleGroup_no_partial_failure "h" stateA
      [⟨tgtA, ["A"], some "h"⟩] true rfl rfl).1 (by decide)
    rw [h.1]

/-- C2: singleton resolution is idempotent and identity-stable.  After any
successful `handleTag t true` call, repeating the call returns the very
same cached instance and leaves the state exactly as it was — so the
constructor never runs again and, by iterating this fixed point, every
later call agrees; likewise, after a successful `handleGroup g true` call,
repeating it returns the same cached sequence (same instances in the same
order) with the state unchanged. -/
theorem singleton_resolution_idempotent (t g : String) (s : DIState)
    (v : Inst) (l : List Inst) :
    ((handleTag t true s).1 = .ok v →
       handleTag t true (handleTag t true s).2
         = (.ok v, (handleTag t true s).2)) ∧
    ((handleGroup g true s).1 = .ok l →
       handleGroup g true (handleGroup g true s).2
         = (.ok l, (handleGroup g true s).2)) := by
  constructor
  · intro hv
    cases hcache : mapGet s.instances t with
    | some i =>
      have h1 : handleTag t true s = (.ok i, s) := by
        simp [handleTag, hcache]
      rw [h1] at hv ⊢
      simp only at hv
      cases hv
      simp [handleTag, hcache]
    | none =>
      cases hregy : mapGet s.classRegistry t with
      | none => simp [handleTag, hcache, hregy] at hv
      | some e =>
        cases hf : e.target.ctorFails with
        | true => simp [handleTag, hcache, hregy, construct, hf] at hv
        | false =>
          have h1 : handleTag t true s
              = (.ok ⟨s.nextId, e.target.tid⟩,
                 { s with nextId := s.nextId + 1,
                          instances := mapSet s.instances t
                            ⟨s.nextId, e.target.tid⟩ }) := by
            simp [handleTag, hcache, hregy, construct, hf]
          rw [h1] at hv ⊢
          simp only at hv
          cases hv
          simp [handleTag, mapGet_mapSet_self]
  · intro hl
    cases hcache : mapGet s.groups g with
    | some cached =>
      have h1 : handleGroup g true s = (.ok cached, s) := by
        simp [handleGroup, hcache]
      rw [h1] at hl ⊢
      simp only at hl
      cases hl
      simp [handleGroup, hcache]
    | none =>
      cases hregy : mapGet s.groupRegistry g with
      | none => simp [handleGroup, hcache, hregy] at hl
      | some items =>
        cases hloop : constructLoop items true [] s with
        | mk r s' =>
          cases r with
          | error err => simp [handleGroup, hcache, hregy, hloop] at hl
          | ok insts =>
            have h1 : handleGroup g true s
                = (.ok insts,
                   { s' with groups := mapSet s'.groups g insts }) := by
              simp [handleGroup, hcache, hregy, hloop]
            rw [h1] at hl ⊢
            simp only at hl
            cases hl
            simp [handleGroup, mapGet_mapSet_self]

theorem singleton_resolution_idempotent_witness :
    handleTag "x" true (handleTag "x" true stateX).2
      = (.ok ⟨0, 0⟩, (handleTag "x" true stateX).2) ∧
    handleGroup "g" true (handleGroup "g" true stateX).2
      = (.ok [⟨0, 0⟩], (handleGroup "g" true stateX).2) :=
  ⟨(singleton_resolution_idempotent "x" "g" stateX ⟨0, 0⟩ [⟨0, 0⟩]).1 rfl,
   (singleton_resolution_idempotent "x" "g" stateX ⟨0, 0⟩ [⟨0, 0⟩]).2 rfl⟩

/-! ### The registration loop of `injectable` -/

/-- One registration-loop iteration with a truthy group appends the entry
to that group's bucket. -/
theorem registerStep_group_bucket (tagList : List String) (g : String)
    (hg : g ≠ "") (target : Target) (s : DIState) (tag : String) :
    mapGet (registerStep tagList (some g) target s tag).groupRegistry g
      = some ((mapGet s.groupRegistry g).getD []
          ++ [⟨target, tagList, some g⟩]) := by
  simp [registerStep, truthyStr, hg, mapGet_mapSet_self]

/-- A registration-loop iteration never touches the caches or the
counter. -/
theorem registerStep_frame (tagList : List String) (go : Option String)
    (target : Target) (s : DIState) (tag : String) :
    (registerStep tagList go target s tag).instances = s.instances ∧
    (registerStep tagList go target s tag).groups = s.groups ∧
    (registerStep tagList go target s tag).nextId = s.nextId := by
  rw [registerStep]
  cases truthyStr go <;> simp

/-- Folding the registration loop never touches the caches or the
counter. -/
theorem registerFold_frame (tagList' tagList : List String)
    (go : Option String) (target : Target) (s : DIState) :
    (tagList'.foldl (registerStep tagList go target) s).instances
      = s.instances ∧
    (tagList'.foldl (registerStep tagList go target) s).groups = s.groups ∧
    (tagList'.foldl (registerStep tagList go target) s).nextId = s.nextId := by
  induction tagList' generalizing s with
  | nil => exact ⟨rfl, rfl, rfl⟩
  | cons t0 rest ih =>
    rw [List.foldl_cons]
    obtain ⟨f1, f2, f3⟩ := registerStep_frame tagList go target s t0
    obtain ⟨g1, g2, g3⟩ := ih (registerStep tagList go target s t0)
    exact ⟨g1.trans f1, g2.trans f2, g3.trans f3⟩

/-- Folding the registration loop over a non-empty tag list with a truthy
group appends one copy of the entry to the group's bucket per tag. -/
theorem registerFold_group_bucket (t0 : String) (rest tagList : List String)
    (g : String) (hg : g ≠ "") (target : Target) (s : DIState) :
    mapGet ((t0 :: rest).foldl
        (registerStep tagList (some g) target) s).groupRegistry g
      = some ((mapGet s.groupRegistry g).getD []
          ++ List.replicate (rest.length + 1) ⟨target, tagList, some g⟩) := by
  induction rest generalizing t0 s with
  | nil =>
    simp only [List.foldl_cons, List.foldl_nil]
    rw [registerStep_group_bucket tagList g hg target s t0]
    simp
  | cons t1 rest1 ih =>
    rw [List.foldl_cons]
    rw [ih t1 (registerStep tagList (some g) target s t0)]
    rw [registerStep_group_bucket tagList g hg target s t0]
    simp [List.replicate_succ, List.append_assoc]

/-- C3: registering a component under a normalized tag list of length `N`
together with a non-empty group appends the same entry to the group's
bucket `N` times (after the previously registered entries, so buckets
preserve registration order), leaves the caches and the counter alone, and
the (default, singleton) group resolution then constructs one instance per
bucket entry, in bucket order — so the newly registered component yields
`N` instances in the result, one at each of the last `N` positions. -/
theorem group_registration_duplication (target : Target)
    (tags : List String) (g : String) (s : DIState)
    (htags : tags ≠ []) (hg : g ≠ "")
    (hcache : mapGet s.groups g = none)
    (hok : allCtorsOk (regBucket s g target tags)) :
    ∃ s1 : DIState,
      injectable ⟨.list tags, some g⟩ target "class" s = (.ok (), s1) ∧
      mapGet s1.groupRegistry g = some (regBucket s g target tags) ∧
      s1.groups = s.groups ∧ s1.instances = s.instances ∧
      s1.nextId = s.nextId ∧
      handleGroup g true s1
        = (.ok (freshly (regBucket s g target tags) s1.nextId),
           { s1 with
             nextId := s1.nextId + (regBucket s g target tags).length,
             groups := mapSet s1.groups g
               (freshly (regBucket s g target tags) s1.nextId) }) ∧
      (freshly (regBucket s g target tags) s.nextId).length
        = ((mapGet s.groupRegistry g).getD []).length + tags.length ∧
      (∀ k, k < (regBucket s g target tags).length →
         (freshly (regBucket s g target tags) s.nextId).getD k ⟨0, 0⟩
           = ⟨s.nextId + k,
              ((regBucket s g target tags).getD k
                ⟨target, tags, some g⟩).target.tid⟩) ∧
      (∀ k, k < tags.length →
         ((freshly (regBucket s g target tags) s.nextId).getD
             (((mapGet s.groupRegistry g).getD []).length + k)
             ⟨0, 0⟩).ofTarget = target.tid) := by
  obtain ⟨t0, rest, rfl⟩ : ∃ t0 rest, tags = t0 :: rest := by
    cases tags with
    | nil => exact absurd rfl htags
    | cons a b => exact ⟨a, b, rfl⟩
  set tags := t0 :: rest with htagsdef
  have hnorm : normalizeTags (.list tags) target = .ok tags :=
    normalizeTags_list_nonempty tags target htags
  refine ⟨tags.foldl (registerStep tags (some g) target) s, ?_, ?_, ?_, ?_, ?_,
    ?_, ?_, ?_, ?_⟩
  · simp [injectable, hnorm]
  · rw [registerFold_group_bucket t0 rest tags g hg target s]
    rfl
  · exact (registerFold_frame tags tags (some g) target s).2.1
  · exact (registerFold_frame tags tags (some g) target s).1
  · exact (registerFold_frame tags tags (some g) target s).2.2
  · have hreg1 : mapGet (tags.foldl
        (registerStep tags (some g) target) s).groupRegistry g
        = some (regBucket s g target tags) := by
      rw [registerFold_group_bucket t0 rest tags g hg target s]
      rfl
    have hcache1 : mapGet (tags.foldl
        (registerStep tags (some g) target) s).groups g = none := by
      rw [(registerFold_frame tags tags (some g) target s).2.1]
      exact hcache
    exact handleGroup_first_singleton g _ _ hreg1 hcache1 hok
  · rw [freshly_length, regBucket]
    simp
  · intro k hk
    exact freshly_getD (regBucket s g target tags) s.nextId k ⟨0, 0⟩
      ⟨target, tags, some g⟩ hk
  · intro k hk
    have hlen : k < (regBucket s g target tags).length
        - ((mapGet s.groupRegistry g).getD []).length := by
      rw [regBucket]
      simp
      omega
    have hklt : ((mapGet s.groupRegistry g).getD []).length + k
        < (regBucket s g target tags).length := by
      rw [regBucket]
      simp
      omega
    rw [freshly_getD (regBucket s g target tags) s.nextId _ ⟨0, 0⟩
      ⟨target, tags, some g⟩ hklt]
    rw [regBucket, getD_append_offset]
    rw [getD_replicate tags.length k _ _ hk]

theorem group_registration_duplication_witness :
    ∃ s1 : DIState,
      injectable ⟨.list ["p", "q"], some "k"⟩ tgtB "class" initState
        = (.ok (), s1) ∧
      mapGet s1.groupRegistry "k"
        = some (regBucket initState "k" tgtB ["p", "q"]) ∧
      handleGroup "k" true s1
        = (.ok (freshly (regBucket initState "k" tgtB ["p", "q"]) s1.nextId),
           { s1 with
             nextId := s1.nextId
               + (regBucket initState "k" tgtB ["p", "q"]).length,
             groups := mapSet s1.groups "k"
               (freshly (regBucket initState "k" tgtB ["p", "q"])
                 s1.nextId) }) := by
  obtain ⟨s1, h1, h2, _, _, _, h6, _⟩ :=
    group_registration_duplication tgtB ["p", "q"] "k" initState
      (by decide) (by decide) rfl (by decide)
  exact ⟨s1, h1, h2, h6⟩

/-! ### State invariants maintained by the public API -/

theorem mapGet_mapSet_cases {α : Type} (m : List (String × α))
    (k k' : String) (v : α) :
    mapGet (mapSet m k v) k' = some v ∨
    mapGet (mapSet m k v) k' = mapGet m k' := by
  by_cases h : k = k'
  · subst h
    exact Or.inl (mapGet_mapSet_self m k v)
  · exact Or.inr (mapGet_mapSet_ne m k k' v h)

theorem registerStep_good (tagList : List String) (go : Option String)
    (target : Target) (s : DIState) (tag : String) (h : GoodState s) :
    GoodState (registerStep tagList go target s tag) := by
  obtain ⟨h1, h2, h3⟩ := h
  rw [registerStep]
  cases hgo : truthyStr go with
  | none =>
    exact ⟨h1, fun t ht => mapGet_mapSet_isSome _ _ _ _ (h2 t ht), h3⟩
  | some g0 =>
    refine ⟨fun g l hl => ?_, fun t ht => mapGet_mapSet_isSome _ _ _ _ (h2 t ht),
      fun g hgs => mapGet_mapSet_isSome _ _ _ _ (h3 g hgs)⟩
    rcases mapGet_mapSet_cases s.groupRegistry g0 g
      ((mapGet s.groupRegistry g0).getD [] ++ [⟨target, tagList, go⟩]) with
      hc | hc
    · rw [hc] at hl
      cases hl
      simp
    · rw [hc] at hl
      exact h1 g l hl

theorem registerFold_good (tagList' tagList : List String)
    (go : Option String) (target : Target) (s : DIState) (h : GoodState s) :
    GoodState (tagList'.foldl (registerStep tagList go target) s) := by
  induction tagList' generalizing s with
  | nil => exact h
  | cons t0 rest ih =>
    rw [List.foldl_cons]
    exact ih _ (registerStep_good tagList go target s t0 h)

theorem injectable_good (opts : InjectableOptions) (target : Target)
    (kind : String) (s : DIState) (h : GoodState s) :
    GoodState (injectable opts target kind s).2 := by
  rw [injectable]
  by_cases hk : kind = "class"
  · subst hk
    simp only [ne_eq, not_true_eq_false, if_false, ite_false]
    cases hn : normalizeTags opts.tags target with
    | error e => exact h
    | ok tagList => exact registerFold_good tagList tagList opts.group target s h
  · simp only [ne_eq, hk, not_false_eq_true, if_true, ite_true]
    exact h

/-- The construction loop only advances the identity counter. -/
theorem constructLoop_state (items : List RegisteredClass) (b : Bool)
    (acc : List Inst) (s : DIState) :
    ∃ (r : Except DIError (List Inst)) (k : Nat),
      constructLoop items b acc s = (r, { s with nextId := s.nextId + k }) := by
  induction items generalizing acc s with
  | nil => exact ⟨.ok acc, 0, rfl⟩
  | cons e rest ih =>
    rw [constructLoop, construct]
    cases hf : e.target.ctorFails with
    | true =>
      simp only [if_true]
      exact ⟨.error (.constructorError e.target.tid), 0, rfl⟩
    | false =>
      simp only [Bool.false_eq_true, if_false]
      obtain ⟨r, k, hk⟩ := ih (if b then acc ++ [⟨s.nextId, e.target.tid⟩] else acc)
        { s with nextId := s.nextId + 1 }
      refine ⟨r, k + 1, ?_⟩
      rw [hk]
      have harith : s.nextId + 1 + k = s.nextId + (k + 1) := by omega
      simp [harith]

theorem handleTag_good (t : String) (b : Bool) (s : DIState)
    (h : GoodState s) : GoodState (handleTag t b s).2 := by
  obtain ⟨h1, h2, h3⟩ := h
  cases hcache : (if b then mapGet s.instances t else none) with
  | some i =>
    have heq : handleTag t b s = (.ok i, s) := by
      rw [handleTag, hcache]
    rw [heq]
    exact ⟨h1, h2, h3⟩
  | none =>
    cases hregy : mapGet s.classRegistry t with
    | none =>
      have heq : handleTag t b s = (.error (.noServiceForTag t), s) := by
        rw [handleTag, hcache, hregy]
      rw [heq]
      exact ⟨h1, h2, h3⟩
    | some e =>
      cases hf : e.target.ctorFails with
      | true =>
        have heq : handleTag t b s
            = (.error (.constructorError e.target.tid), s) := by
          simp only [handleTag, hcache, hregy, construct, hf, if_true]
        rw [heq]
        exact ⟨h1, h2, h3⟩
      | false =>
        cases b with
        | false =>
          have heq : handleTag t false s
              = (.ok ⟨s.nextId, e.target.tid⟩,
                 { s with nextId := s.nextId + 1 }) := by
            simp only [handleTag, hcache, hregy, construct, hf,
              Bool.false_eq_true, if_false]
          rw [heq]
          exact ⟨h1, h2, h3⟩
        | true =>
          have hc : mapGet s.instances t = none := by simpa using hcache
          have heq : handleTag t true s
              = (.ok ⟨s.nextId, e.target.tid⟩,
                 { s with nextId := s.nextId + 1,
                          instances := mapSet s.instances t
                            ⟨s.nextId, e.target.tid⟩ }) := by
            simp only [handleTag, hc, hregy, construct, hf,
              Bool.false_eq_true, if_false, if_true]
          rw [heq]
          refine ⟨h1, fun t' ht' => ?_, h3⟩
          by_cases htt : t = t'
          · subst htt
            simp [hregy]
          · rw [mapGet_mapSet_ne s.instances t t' _ htt] at ht'
            exact h2 t' ht'

theorem handleGroup_good (g : String) (b : Bool) (s : DIState)
    (h : GoodState s) : GoodState (handleGroup g b s).2 := by
  obtain ⟨h1, h2, h3⟩ := h
  cases hcache : (if b then mapGet s.groups g else none) with
  | some cached =>
    have heq : handleGroup g b s = (.ok cached, s) := by
      rw [handleGroup, hcache]
    rw [heq]
    exact ⟨h1, h2, h3⟩
  | none =>
    cases hregy : mapGet s.groupRegistry g with
    | none =>
      have heq : handleGroup g b s = (.error (.noServiceForGroup g), s) := by
        rw [handleGroup, hcache, hregy]
      rw [heq]
      exact ⟨h1, h2, h3⟩
    | some items =>
      obtain ⟨r, k, hk⟩ := constructLoop_state items b [] s
      cases r with
      | error err =>
        have heq : handleGroup g b s
            = (.error err, { s with nextId := s.nextId + k }) := by
          simp only [handleGroup, hcache, hregy, hk]
        rw [heq]
        exact ⟨h1, h2, h3⟩
      | ok insts =>
        cases b with
        | false =>
          have heq : handleGroup g false s
              = (.ok insts, { s with nextId := s.nextId + k }) := by
            simp only [handleGroup, hcache, hregy, hk,
              Bool.false_eq_true, if_false]
          rw [heq]
          exact ⟨h1, h2, h3⟩
        | true =>
          have hc : mapGet s.groups g = none := by simpa using hcache
          have heq : handleGroup g true s
              = (.ok insts,
                 { s with nextId := s.nextId + k,
                          groups := mapSet s.groups g insts }) := by
            simp only [handleGroup, hc, hregy, hk, if_true]
          rw [heq]
          refine ⟨h1, h2, fun g' hg' => ?_⟩
          by_cases hgg : g = g'
          · subst hgg
            simp [hregy]
          · rw [mapGet_mapSet_ne s.groups g g' _ hgg] at hg'
            exact h3 g' hg'

theorem inject_good (opts : InjectOptions) (s : DIState) (h : GoodState s) :
    GoodState (inject opts s).2 := by
  cases htr : truthyStr opts.tag with
  | some t =>
    cases hcall : handleTag t (opts.singleton.getD true) s with
    | mk r s' =>
      have hgood := handleTag_good t (opts.singleton.getD true) s h
      rw [hcall] at hgood
      cases r with
      | ok i =>
        have heq : inject opts s = (.ok (.one i), s') := by
          simp only [inject, htr, hcall]
        rw [heq]
        exact hgood
      | error e =>
        have heq : inject opts s = (.error e, s') := by
          simp only [inject, htr, hcall]
        rw [heq]
        exact hgood
  | none =>
    cases hgr : truthyStr opts.group with
    | some g =>
      cases hcall : handleGroup g (opts.singleton.getD true) s with
      | mk r s' =>
        have hgood := handleGroup_good g (opts.singleton.getD true) s h
        rw [hcall] at hgood
        cases r with
        | ok l =>
          have heq : inject opts s = (.ok (.many l), s') := by
            simp only [inject, htr, hgr, hcall]
          rw [heq]
          exact hgood
        | error e =>
          have heq : inject opts s = (.error e, s') := by
            simp only [inject, htr, hgr, hcall]
          rw [heq]
          exact hgood
    | none =>
      have heq : inject opts s = (.error .needsEitherTagOrGroup, s) := by
        simp only [inject, htr, hgr]
      rw [heq]
      exact h

/-- Every state reachable through the public API is internally consistent:
present buckets are non-empty, and each singleton cache only holds keys
present in the corresponding registry. -/
theorem reachable_good (s : DIState) (h : Reachable s) : GoodState s := by
  induction h with
  | init =>
    refine ⟨fun g l hl => ?_, fun t ht => ?_, fun g hg => ?_⟩
    · simp [initState, mapGet] at hl
    · simp [initState, mapGet] at ht
    · simp [initState, mapGet] at hg
  | reg opts target kind h ih => exact injectable_good opts target kind _ ih
  | res opts h ih => exact inject_good opts _ ih

/-- C4: in any reachable state, resolving a tag that was never registered
(no class-registry binding) fails with `No service found for tag` and
returns the state unchanged — no instance is constructed and no cache is
modified — and resolving a group whose bucket is absent (or, per the
bucket-non-emptiness invariant, empty, a situation the registration API
can never produce) fails with `No service found for group`, likewise
leaving the state untouched. -/
theorem unregistered_resolution_not_found (s : DIState) (hs : Reachable s)
    (t g : String) (b b' : Bool)
    (ht : mapGet s.classRegistry t = none)
    (hg : mapGet s.groupRegistry g = none ∨
      mapGet s.groupRegistry g = some []) :
    handleTag t b s = (.error (.noServiceForTag t), s) ∧
    handleGroup g b' s = (.error (.noServiceForGroup g), s) := by
  obtain ⟨inv1, inv2, inv3⟩ := reachable_good s hs
  have hgnone : mapGet s.groupRegistry g = none := by
    rcases hg with h | h
    · exact h
    · exact absurd rfl (inv1 g [] h)
  have hinst : mapGet s.instances t = none := by
    cases hh : mapGet s.instances t with
    | none => rfl
    | some v =>
      have := inv2 t (by simp [hh])
      rw [ht] at this
      simp at this
  have hgroups : mapGet s.groups g = none := by
    cases hh : mapGet s.groups g with
    | none => rfl
    | some l =>
      have := inv3 g (by simp [hh])
      rw [hgnone] at this
      simp at this
  constructor
  · cases b with
    | false => simp [handleTag, ht]
    | true => simp [handleTag, hinst, ht]
  · cases b' with
    | false => simp [handleGroup, hgnone]
    | true => simp [handleGroup, hgroups, hgnone]

theorem unregistered_resolution_not_found_witness :
    handleTag "y" true stateX = (.error (.noServiceForTag "y"), stateX) ∧
    handleGroup "nope" true stateX
      = (.error (.noServiceForGroup "nope"), stateX) :=
  unregistered_resolution_not_found stateX
    (Reachable.reg ⟨.str "x", some "g"⟩ tgtX "class" Reachable.init)
    "y" "nope" true true (by decide) (Or.inl (by decide))

end Dion
